import Mathlib

/-!
# Verification of the Torus collectible aggregation engine

Shallow embedding of the collectible detection / merge / store logic from
`src/controllers/AssetsDetectionController.js` and the `AssetController`
portion of `src/controllers/network/createMetamaskMiddleware.js`.

JavaScript objects that are used as string-keyed dictionaries are modelled
as insertion-ordered association lists `List (String × α)` with unique keys
(`jsInsert` replaces the value in place at an existing key and appends a
fresh key at the end, exactly like property assignment on a JS object).
JavaScript primitive values that participate in truthiness checks are
modelled by `JsVal` (`undefined`, `null`, strings, numbers).
-/

namespace Torus

/-- A JavaScript primitive value as it appears in the collectible payloads:
`undefined`, `null`, a string, or a (non-negative integer) number. -/
inductive JsVal where
  | undef : JsVal
  | null : JsVal
  | str : String → JsVal
  | num : Nat → JsVal
deriving DecidableEq, Repr

/-- JavaScript truthiness of a `JsVal`: `undefined`, `null`, `""` and `0`
are falsy, every other modelled value is truthy. -/
def jsTruthy : JsVal → Bool
  | .undef => false
  | .null => false
  | .str s => !(s == "")
  | .num n => !(n == 0)

/-- Property read `m[k]` on a string-keyed JS object modelled as an
association list: the first binding of the key, if any. -/
def jsLookup : List (String × α) → String → Option α
  | [], _ => none
  | p :: rest, k => if p.1 = k then some p.2 else jsLookup rest k

/-- Property write `m[k] = v` on a string-keyed JS object: replaces the
value in place when the key is present, otherwise appends the binding at
the end (JS objects preserve first-insertion order of string keys). -/
def jsInsert : List (String × α) → String → α → List (String × α)
  | [], k, v => [(k, v)]
  | p :: rest, k, v => if p.1 = k then (k, v) :: rest else p :: jsInsert rest k v

/-- Builds a JS object by assigning the given bindings in order onto an
initially empty object. -/
def jsBuild (l : List (String × α)) : List (String × α) :=
  l.foldl (fun m p => jsInsert m p.1 p.2) []

/-- `getObjectFromArrayBasedonKey(array, key)` from
`createMetamaskMiddleware.js`: reduces an array into an object keyed by
the named field (`acc[x[key]] = x`), later entries overwriting earlier
ones in place. -/
def getObjectFromArrayBasedonKey (f : α → String) (l : List α) : List (String × α) :=
  jsBuild (l.map fun x => (f x, x))

theorem jsLookup_nil (k : String) : jsLookup ([] : List (String × α)) k = none := rfl

theorem jsLookup_eq_none_iff (m : List (String × α)) (k : String) :
    jsLookup m k = none ↔ k ∉ m.map Prod.fst := by
  induction m with
  | nil => simp [jsLookup]
  | cons p rest ih =>
    by_cases h : p.1 = k
    · simp [jsLookup, h]
    · simp [jsLookup, h, ih, Ne.symm h]

theorem jsLookup_isSome_iff (m : List (String × α)) (k : String) :
    (jsLookup m k).isSome ↔ k ∈ m.map Prod.fst := by
  rcases h : jsLookup m k with _ | v
  · rw [jsLookup_eq_none_iff] at h
    simp [h]
  · have : jsLookup m k ≠ none := by simp [h]
    rw [Ne, jsLookup_eq_none_iff, not_not] at this
    simp [h, this]

theorem mem_of_jsLookup_eq_some {m : List (String × α)} {k : String} {v : α}
    (h : jsLookup m k = some v) : (k, v) ∈ m := by
  induction m with
  | nil => simp [jsLookup] at h
  | cons p rest ih =>
    rw [jsLookup] at h
    by_cases hp : p.1 = k
    · rw [if_pos hp] at h
      obtain rfl : p.2 = v := by injection h
      exact List.mem_cons.mpr (Or.inl (by rw [← hp]))
    · rw [if_neg hp] at h
      exact List.mem_cons_of_mem _ (ih h)

theorem jsLookup_jsInsert (m : List (String × α)) (k : String) (v : α) (k' : String) :
    jsLookup (jsInsert m k v) k' = if k' = k then some v else jsLookup m k' := by
  induction m with
  | nil =>
    by_cases h : k' = k
    · subst h
      simp [jsInsert, jsLookup]
    · simp [jsInsert, jsLookup, h, Ne.symm h]
  | cons p rest ih =>
    by_cases hp : p.1 = k
    · by_cases h : k' = k
      · subst h
        simp [jsInsert, jsLookup, hp]
      · simp [jsInsert, jsLookup, hp, h, Ne.symm h]
    · by_cases h : k' = k
      · subst h
        have hp' : ¬p.1 = k' := hp
        simp [jsInsert, jsLookup, hp', ih]
      · by_cases hq : p.1 = k'
        · simp [jsInsert, jsLookup, hp, hq, h]
        · simp [jsInsert, jsLookup, hp, hq, h, ih]

theorem mem_keys_jsInsert (m : List (String × α)) (k : String) (v : α) (k' : String) :
    k' ∈ (jsInsert m k v).map Prod.fst ↔ k' ∈ m.map Prod.fst ∨ k' = k := by
  induction m with
  | nil => simp [jsInsert]
  | cons p rest ih =>
    by_cases hp : p.1 = k
    · subst hp
      simp [jsInsert]
      tauto
    · simp [jsInsert, hp, ih]
      tauto

theorem nodupKeys_jsInsert (m : List (String × α)) (k : String) (v : α)
    (h : (m.map Prod.fst).Nodup) : ((jsInsert m k v).map Prod.fst).Nodup := by
  induction m with
  | nil => simp [jsInsert]
  | cons p rest ih =>
    by_cases hp : p.1 = k
    · subst hp
      simpa [jsInsert] using h
    · rw [List.map_cons, List.nodup_cons] at h
      rw [jsInsert, if_neg hp, List.map_cons, List.nodup_cons]
      refine ⟨fun hmem => ?_, ih h.2⟩
      rcases (mem_keys_jsInsert rest k v p.1).mp hmem with h1 | h1
      · exact h.1 h1
      · exact hp h1

theorem jsInsert_fresh (m : List (String × α)) (k : String) (v : α)
    (h : k ∉ m.map Prod.fst) : jsInsert m k v = m ++ [(k, v)] := by
  induction m with
  | nil => rfl
  | cons p rest ih =>
    rw [List.map_cons, List.mem_cons] at h
    push_neg at h
    rw [jsInsert, if_neg (fun he => h.1 he.symm), List.cons_append, ih h.2]

theorem nodupKeys_foldl_jsInsert (l m : List (String × α))
    (h : (m.map Prod.fst).Nodup) :
    ((List.foldl (fun m p => jsInsert m p.1 p.2) m l).map Prod.fst).Nodup := by
  induction l generalizing m with
  | nil => simpa using h
  | cons p rest ih => exact ih _ (nodupKeys_jsInsert m p.1 p.2 h)

theorem nodupKeys_jsBuild (l : List (String × α)) :
    ((jsBuild l).map Prod.fst).Nodup :=
  nodupKeys_foldl_jsInsert l [] (by simp)

theorem mem_keys_foldl_jsInsert (l m : List (String × α)) (k : String) :
    k ∈ ((List.foldl (fun m p => jsInsert m p.1 p.2) m l).map Prod.fst) ↔
      k ∈ m.map Prod.fst ∨ k ∈ l.map Prod.fst := by
  induction l generalizing m with
  | nil => simp
  | cons p rest ih =>
    rw [List.foldl_cons, ih, mem_keys_jsInsert]
    simp
    tauto

theorem mem_keys_jsBuild (l : List (String × α)) (k : String) :
    k ∈ (jsBuild l).map Prod.fst ↔ k ∈ l.map Prod.fst := by
  rw [jsBuild, mem_keys_foldl_jsInsert]
  simp

theorem foldl_jsInsert_fresh (l m : List (String × α))
    (hdisj : ∀ p ∈ l, p.1 ∉ m.map Prod.fst) (hnd : (l.map Prod.fst).Nodup) :
    List.foldl (fun m p => jsInsert m p.1 p.2) m l = m ++ l := by
  induction l generalizing m with
  | nil => simp
  | cons p rest ih =>
    rw [List.map_cons, List.nodup_cons] at hnd
    rw [List.foldl_cons, jsInsert_fresh m p.1 p.2 (hdisj p (List.mem_cons_self p rest)),
      ih (m ++ [(p.1, p.2)])]
    · simp
    · intro q hq
      rw [List.map_append, List.mem_append]
      push_neg
      refine ⟨hdisj q (List.mem_cons_of_mem p hq), ?_⟩
      simp only [List.map_cons, List.map_nil, List.mem_singleton]
      intro hcon
      exact hnd.1 (hcon ▸ List.mem_map_of_mem Prod.fst hq)
    · exact hnd.2

theorem jsBuild_self (l : List (String × α)) (hnd : (l.map Prod.fst).Nodup) :
    jsBuild l = l := by
  rw [jsBuild, foldl_jsInsert_fresh l [] (by simp) hnd, List.nil_append]

theorem jsLookup_foldl_jsInsert (l m : List (String × α)) (k : String)
    (hnd : (l.map Prod.fst).Nodup) :
    jsLookup (List.foldl (fun m p => jsInsert m p.1 p.2) m l) k =
      match jsLookup l k with
      | some v => some v
      | none => jsLookup m k := by
  induction l generalizing m with
  | nil => simp [jsLookup]
  | cons p rest ih =>
    rw [List.map_cons, List.nodup_cons] at hnd
    rw [List.foldl_cons, ih _ hnd.2]
    by_cases h : p.1 = k
    · subst h
      have hnone : jsLookup rest p.1 = none :=
        (jsLookup_eq_none_iff rest p.1).mpr hnd.1
      simp [jsLookup, hnone, jsLookup_jsInsert]
    · have hk : ¬k = p.1 := fun hc => h hc.symm
      rcases hr : jsLookup rest k with _ | v
      · simp [jsLookup, h, hr, jsLookup_jsInsert, hk]
      · simp [jsLookup, h, hr]

theorem jsLookup_jsBuild (l : List (String × α)) (k : String)
    (hnd : (l.map Prod.fst).Nodup) : jsLookup (jsBuild l) k = jsLookup l k := by
  rw [jsBuild, jsLookup_foldl_jsInsert l [] k hnd]
  rcases jsLookup l k with _ | v <;> simp [jsLookup]

theorem mem_jsInsert {q : String × α} {m : List (String × α)} {k : String} {v : α}
    (h : q ∈ jsInsert m k v) : q ∈ m ∨ q = (k, v) := by
  induction m with
  | nil => simpa [jsInsert] using h
  | cons p rest ih =>
    by_cases hp : p.1 = k
    · rw [jsInsert, if_pos hp] at h
      rcases List.mem_cons.mp h with h1 | h1
      · exact Or.inr h1
      · exact Or.inl (List.mem_cons_of_mem _ h1)
    · rw [jsInsert, if_neg hp] at h
      rcases List.mem_cons.mp h with h1 | h1
      · exact Or.inl (h1 ▸ List.mem_cons_self p rest)
      · rcases ih h1 with h2 | h2
        · exact Or.inl (List.mem_cons_of_mem _ h2)
        · exact Or.inr h2

theorem mem_foldl_jsInsert {q : String × α} {l m : List (String × α)}
    (h : q ∈ List.foldl (fun m p => jsInsert m p.1 p.2) m l) : q ∈ m ∨ q ∈ l := by
  induction l generalizing m with
  | nil => exact Or.inl (by simpa using h)
  | cons p rest ih =>
    rw [List.foldl_cons] at h
    rcases ih h with h1 | h1
    · rcases mem_jsInsert h1 with h2 | h2
      · exact Or.inl h2
      · exact Or.inr (h2 ▸ List.mem_cons_self _ rest)
    · exact Or.inr (List.mem_cons_of_mem _ h1)

theorem mem_getObjectFromArrayBasedonKey {f : α → String} {l : List α}
    {p : String × α} (h : p ∈ getObjectFromArrayBasedonKey f l) :
    p.1 = f p.2 ∧ p.2 ∈ l := by
  rcases mem_foldl_jsInsert h with h1 | h1
  · simp at h1
  · rcases List.mem_map.mp h1 with ⟨x, hx, hpx⟩
    refine ⟨?_, ?_⟩
    · rw [← hpx]
    · rw [← hpx]
      exact hx

theorem mem_keys_getObjectFromArrayBasedonKey (f : α → String) (l : List α) (k : String) :
    k ∈ (getObjectFromArrayBasedonKey f l).map Prod.fst ↔ k ∈ l.map f := by
  rw [getObjectFromArrayBasedonKey, mem_keys_jsBuild, List.map_map]
  rfl

theorem jsLookup_getObjectFromArrayBasedonKey_eq_none (f : α → String) (l : List α)
    (k : String) : jsLookup (getObjectFromArrayBasedonKey f l) k = none ↔ k ∉ l.map f := by
  rw [jsLookup_eq_none_iff, mem_keys_getObjectFromArrayBasedonKey]

theorem getObjectFromArrayBasedonKey_self (f : α → String) (l : List α)
    (hnd : (l.map f).Nodup) :
    getObjectFromArrayBasedonKey f l = l.map fun x => (f x, x) := by
  rw [getObjectFromArrayBasedonKey, jsBuild_self]
  rw [List.map_map]
  exact hnd

/-- The shared body of `mergeContractArrays` and `mergeCollectibleArrays`
from `createMetamaskMiddleware.js`: key both arrays
(`getObjectFromArrayBasedonKey`), start from the new array, and push every
entry of the old map whose key is absent from the new map
(`if (!newMap[x]) finalArr.push(oldMap[x])`). -/
def mergeByKey (f : α → String) (oldArr newArr : List α) : List α :=
  let oldMap := getObjectFromArrayBasedonKey f oldArr
  let newMap := getObjectFromArrayBasedonKey f newArr
  newArr ++ (oldMap.filter fun p => (jsLookup newMap p.1).isNone).map fun p => p.2

theorem mergeByKey_def (f : α → String) (oldArr newArr : List α) :
    mergeByKey f oldArr newArr =
      newArr ++ ((getObjectFromArrayBasedonKey f oldArr).filter
        (fun p => (jsLookup (getObjectFromArrayBasedonKey f newArr) p.1).isNone)).map
        (fun p => p.2) := rfl

theorem mergeOldPart_spec (f : α → String) (oldArr newArr : List α) :
    ∀ y ∈ ((getObjectFromArrayBasedonKey f oldArr).filter
        (fun p => (jsLookup (getObjectFromArrayBasedonKey f newArr) p.1).isNone)).map
        (fun p => p.2),
      f y ∉ newArr.map f ∧ y ∈ oldArr := by
  intro y hy
  rcases List.mem_map.mp hy with ⟨p, hp, hpy⟩
  have hmem := List.mem_of_mem_filter hp
  have hpred := List.of_mem_filter hp
  have hco := mem_getObjectFromArrayBasedonKey hmem
  have hnone : jsLookup (getObjectFromArrayBasedonKey f newArr) p.1 = none :=
    Option.isNone_iff_eq_none.mp hpred
  rw [jsLookup_getObjectFromArrayBasedonKey_eq_none] at hnone
  subst hpy
  exact ⟨hco.1 ▸ hnone, hco.2⟩

theorem mergeOldPart_nodupKeys (f : α → String) (oldArr newArr : List α) :
    ((((getObjectFromArrayBasedonKey f oldArr).filter
        (fun p => (jsLookup (getObjectFromArrayBasedonKey f newArr) p.1).isNone)).map
        (fun p => p.2)).map f).Nodup := by
  have hsub : (((getObjectFromArrayBasedonKey f oldArr).filter
      (fun p => (jsLookup (getObjectFromArrayBasedonKey f newArr) p.1).isNone)).map
      Prod.fst).Nodup :=
    ((List.filter_sublist _).map Prod.fst).nodup (nodupKeys_jsBuild _)
  rw [List.map_map]
  have heq : ((getObjectFromArrayBasedonKey f oldArr).filter
      (fun p => (jsLookup (getObjectFromArrayBasedonKey f newArr) p.1).isNone)).map
      (f ∘ fun p => p.2) =
      ((getObjectFromArrayBasedonKey f oldArr).filter
      (fun p => (jsLookup (getObjectFromArrayBasedonKey f newArr) p.1).isNone)).map
      Prod.fst := by
    refine List.map_congr_left ?_
    intro p hp
    exact ((mem_getObjectFromArrayBasedonKey (List.mem_of_mem_filter hp)).1).symm
  rw [heq]
  exact hsub

theorem getObjectFromArrayBasedonKey_append_fresh (f : α → String) (l₁ l₂ : List α)
    (hdisj : ∀ y ∈ l₂, f y ∉ l₁.map f) (hnd : (l₂.map f).Nodup) :
    getObjectFromArrayBasedonKey f (l₁ ++ l₂) =
      getObjectFromArrayBasedonKey f l₁ ++ l₂.map fun x => (f x, x) := by
  rw [getObjectFromArrayBasedonKey, List.map_append, jsBuild, List.foldl_append]
  rw [foldl_jsInsert_fresh]
  · rfl
  · intro p hp
    rcases List.mem_map.mp hp with ⟨y, hy, rfl⟩
    intro hcon
    rcases (mem_keys_foldl_jsInsert (l₁.map fun x => (f x, x)) [] (f y)).mp hcon with h0 | h0
    · simp at h0
    · rw [List.map_map] at h0
      exact hdisj y hy h0
  · rw [List.map_map]
    exact hnd

theorem mergeByKey_idem (f : α → String) (oldArr newArr : List α) :
    mergeByKey f (mergeByKey f oldArr newArr) newArr = mergeByKey f oldArr newArr := by
  have hspec := mergeOldPart_spec f oldArr newArr
  have hnd := mergeOldPart_nodupKeys f oldArr newArr
  rw [mergeByKey_def f (mergeByKey f oldArr newArr) newArr,
    mergeByKey_def f oldArr newArr,
    getObjectFromArrayBasedonKey_append_fresh f newArr _ (fun y hy => (hspec y hy).1) hnd,
    List.filter_append, List.map_append]
  have h1 : ((getObjectFromArrayBasedonKey f newArr).filter
      (fun p => (jsLookup (getObjectFromArrayBasedonKey f newArr) p.1).isNone)) = [] := by
    rw [List.filter_eq_nil_iff]
    intro p hp
    have hk : p.1 ∈ newArr.map f := by
      have := List.mem_map_of_mem Prod.fst hp
      rwa [mem_keys_getObjectFromArrayBasedonKey] at this
    have : jsLookup (getObjectFromArrayBasedonKey f newArr) p.1 ≠ none := by
      rw [Ne, jsLookup_getObjectFromArrayBasedonKey_eq_none, not_not]
      exact hk
    simp [Option.isNone_iff_eq_none, this]
  have h2 : (((((getObjectFromArrayBasedonKey f oldArr).filter
      (fun p => (jsLookup (getObjectFromArrayBasedonKey f newArr) p.1).isNone)).map
      (fun p => p.2)).map (fun x => (f x, x))).filter
      (fun p => (jsLookup (getObjectFromArrayBasedonKey f newArr) p.1).isNone)) =
      (((getObjectFromArrayBasedonKey f oldArr).filter
      (fun p => (jsLookup (getObjectFromArrayBasedonKey f newArr) p.1).isNone)).map
      (fun p => p.2)).map (fun x => (f x, x)) := by
    rw [List.filter_eq_self]
    intro p hp
    rcases List.mem_map.mp hp with ⟨y, hy, rfl⟩
    have : jsLookup (getObjectFromArrayBasedonKey f newArr) (f y) = none :=
      (jsLookup_getObjectFromArrayBasedonKey_eq_none f newArr (f y)).mpr (hspec y hy).1
    simp [this]
  rw [h1, h2]
  simp [List.map_map]

theorem mergeByKey_nodupKeys (f : α → String) (oldArr newArr : List α)
    (hn : (newArr.map f).Nodup) : ((mergeByKey f oldArr newArr).map f).Nodup := by
  rw [mergeByKey_def, List.map_append]
  refine List.Nodup.append hn (mergeOldPart_nodupKeys f oldArr newArr) ?_
  intro a ha hb
  rcases List.mem_map.mp hb with ⟨y, hy, rfl⟩
  exact (mergeOldPart_spec f oldArr newArr y hy).1 ha

theorem mergeByKey_mem_old (f : α → String) (oldArr newArr : List α)
    (hold : (oldArr.map f).Nodup) {c : α} (hc : c ∈ oldArr)
    (hknew : f c ∉ newArr.map f) : c ∈ mergeByKey f oldArr newArr := by
  rw [mergeByKey_def]
  refine List.mem_append_right _ ?_
  rw [getObjectFromArrayBasedonKey_self f oldArr hold]
  refine List.mem_map.mpr ⟨(f c, c), ?_, rfl⟩
  rw [List.mem_filter]
  refine ⟨List.mem_map_of_mem _ hc, ?_⟩
  have : jsLookup (getObjectFromArrayBasedonKey f newArr) (f c) = none :=
    (jsLookup_getObjectFromArrayBasedonKey_eq_none f newArr (f c)).mpr hknew
  simp [this]

theorem mergeByKey_mem_elim {f : α → String} {oldArr newArr : List α} {c : α}
    (h : c ∈ mergeByKey f oldArr newArr) : c ∈ newArr ∨ c ∈ oldArr := by
  rw [mergeByKey_def] at h
  rcases List.mem_append.mp h with h1 | h1
  · exact Or.inl h1
  · rcases List.mem_map.mp h1 with ⟨p, hp, rfl⟩
    exact Or.inr (mem_getObjectFromArrayBasedonKey (List.mem_of_mem_filter hp)).2

/-- `CONTRACT_TYPE_ERC721` from `utils/enums`. Modelled from the spec: the
enums module is not under `src/`; the spec canonicalizes standards to
lower-case (`erc721`). -/
def CONTRACT_TYPE_ERC721 : String := "erc721"

/-- `CONTRACT_TYPE_ERC1155` from `utils/enums`. Modelled from the spec: the
enums module is not under `src/`; the spec canonicalizes standards to
lower-case (`erc1155`). -/
def CONTRACT_TYPE_ERC1155 : String := "erc1155"

/-- A collectible in the shape produced by the three source adapters in
`AssetsDetectionController.js`: top-level `contractAddress` and `tokenID`
plus a flat `options` object of JS values. -/
structure Collectible where
  contractAddress : String
  tokenID : String
  options : List (String × JsVal)
deriving DecidableEq, Repr

/-- `toLowerCase()` on one character: ASCII upper-case letters are shifted
to lower case (the addresses and standards this code lowercases are plain
ASCII). -/
def charLower (c : Char) : Char :=
  if 65 ≤ c.toNat && c.toNat ≤ 90 then Char.ofNat (c.toNat + 32) else c

/-- JavaScript `String.prototype.toLowerCase()` on the ASCII strings this
code handles, written structurally over the character list. -/
def stringToLower (s : String) : String :=
  ⟨s.data.map charLower⟩

/-- The index key used by every adapter map in
`AssetsDetectionController.js`:
`contractAddress.toLowerCase() + "_" + tokenID.toString()`. -/
def collectibleKey (c : Collectible) : String :=
  stringToLower c.contractAddress ++ "_" ++ c.tokenID

/-- `deepmerge(covalentCollectible, openseaCollectible)` as used in
`detectCollectibles`: the source's primitive fields win, and the nested
`options` objects are merged key by key with the source's bindings
(including falsy ones) overwriting the target's — both `options` objects
are flat, so no deeper recursion occurs. -/
def deepmergeCollectible (target source : Collectible) : Collectible :=
  { contractAddress := source.contractAddress
    tokenID := source.tokenID
    options := jsBuild (target.options ++ source.options) }

/-- The merge step of `detectCollectibles` after the adapter maps are
available: when the OpenSea map is non-empty, iterate its keys, skip keys
that belong to the custom map, and deep-merge with the Covalent entry when
one exists; otherwise iterate the Covalent map, again skipping custom
keys. -/
def detectProviderPart (customMap covalentMap openseaMap : List (String × Collectible)) :
    List Collectible :=
  if 0 < openseaMap.length then
    (openseaMap.filter fun p => (jsLookup customMap p.1).isNone).map fun p =>
      match jsLookup covalentMap p.1 with
      | some cov => deepmergeCollectible cov p.2
      | none => p.2
  else
    (covalentMap.filter fun p => (jsLookup customMap p.1).isNone).map fun p => p.2

/-- The final array built by one `detectCollectibles` cycle, as a function
of the custom adapter's array (whose keyed map is built exactly as
`getCustomNfts` builds it) and the two provider arrays. On Mainnet/Matic
both providers participate; on other supported networks only Covalent is
consulted. -/
def detectFinalArr (mainnetOrMatic : Bool)
    (customArr covalentArr openseaArr : List Collectible) : List Collectible :=
  let customMap := getObjectFromArrayBasedonKey collectibleKey customArr
  let covalentMap := getObjectFromArrayBasedonKey collectibleKey covalentArr
  let openseaMap :=
    if mainnetOrMatic then getObjectFromArrayBasedonKey collectibleKey openseaArr else []
  customArr ++ detectProviderPart customMap covalentMap openseaMap

/-- A user-supplied custom NFT entry as consumed by `getCustomNfts`
(fields `nft_address`, `nft_id`, `nft_contract_standard`, `network`,
`description`, `nft_image_link`, `nft_name`); the empty string stands for
a missing/falsy text field. -/
structure CustomNft where
  nft_address : String
  nft_id : String
  nft_contract_standard : String
  network : String
  description : String
  nft_image_link : String
  nft_name : String
deriving DecidableEq, Repr

/-- The metadata object returned by `NftHandler.getNftMetadata` as read by
`getCustomNfts` (fields `decription`, `nftImageLink`, `nftName` — the
first one is spelled exactly as the source reads it). -/
structure NftMetadata where
  decription : String
  nftImageLink : String
  nftName : String
deriving DecidableEq, Repr

/-- The collectible object `getCustomNfts` builds for one custom entry
once its balance and display fields are resolved. -/
def customCollectible (x : CustomNft) (nftName nftImage desc : String) (balance : Nat) :
    Collectible :=
  { contractAddress := x.nft_address
    tokenID := x.nft_id
    options := [("contractName", JsVal.str nftName), ("contractSymbol", JsVal.str nftName),
      ("contractImage", JsVal.str nftImage), ("contractFallbackLogo", JsVal.str nftImage),
      ("standard", JsVal.str (stringToLower x.nft_contract_standard)),
      ("contractDescription", JsVal.str desc), ("description", JsVal.str desc),
      ("image", JsVal.str nftImage), ("name", JsVal.str (x.nft_name ++ "#" ++ x.nft_id)),
      ("tokenBalance", JsVal.num balance)] }

/-- Processing of one custom entry inside `getCustomNfts`'s `Promise.all`.
`balanceOf` models `NftHandler.fetchNftBalance` (`none` = the lookup
threw) and `metadataOf` models `NftHandler.getNftMetadata` (`none` = the
fetch threw). A zero balance raises `'Nft not owned by user anymore'`;
every raise is caught and converted to `undefined`, i.e. `none`. -/
def processCustomNft (balanceOf : CustomNft → Option Nat)
    (metadataOf : CustomNft → Option NftMetadata) (x : CustomNft) : Option Collectible :=
  match balanceOf x with
  | none => none
  | some b =>
    if b = 0 then none
    else if x.description == "" || x.nft_image_link == "" || x.nft_name == "" then
      match metadataOf x with
      | none => none
      | some m => some (customCollectible x m.nftName m.nftImageLink m.decription b)
    else some (customCollectible x x.nft_name x.nft_image_link x.description b)

/-- `getCustomNfts(customNfts)` from `AssetsDetectionController.js`:
returns early when no address is selected, filters the entries to the
active network, resolves each entry independently (failures become
`undefined` and are filtered out), and returns the surviving collectibles
together with the index-keyed map built from them. -/
def getCustomNfts (balanceOf : CustomNft → Option Nat)
    (metadataOf : CustomNft → Option NftMetadata) (localNetwork selectedAddress : String)
    (customNfts : List CustomNft) : List Collectible × List (String × Collectible) :=
  if selectedAddress == "" then ([], [])
  else
    ((customNfts.filter fun x => x.network == localNetwork).filterMap
        (processCustomNft balanceOf metadataOf),
      getObjectFromArrayBasedonKey collectibleKey
        ((customNfts.filter fun x => x.network == localNetwork).filterMap
          (processCustomNft balanceOf metadataOf)))

/-- The `external_data` payload of one Covalent NFT record (raw JS values;
`undef` stands for an absent field). -/
structure CovalentExternalData where
  name : JsVal
  description : JsVal
  image : JsVal
deriving DecidableEq, Repr

/-- One entry of a Covalent item's `nft_data` array. -/
structure CovalentNft where
  token_id : String
  token_balance : JsVal
  supports_erc : List String
  external_data : Option CovalentExternalData
deriving DecidableEq, Repr

/-- One item of the Covalent balances response. `itemType` is the `type`
field of the source. `nft_data = []` also covers a null/absent `nft_data`
(the source guards with `!!nft_data && nft_data.length > 0`). -/
structure CovalentItem where
  itemType : String
  contract_name : String
  logo_url : JsVal
  contract_address : String
  contract_ticker_symbol : JsVal
  nft_data : List CovalentNft
deriving DecidableEq, Repr

/-- The suffix appended to the running `contractName` for one `nft_data`
entry in `detectCollectiblesFromCovalent`: `" (" + pfx + "1155)"` when
`supports_erc` includes `erc1155`, else `" (" + pfx + "721)"`. -/
def covalentSuffix (pfx : String) (nft : CovalentNft) : String :=
  if nft.supports_erc.contains "erc1155" then " (" ++ pfx ++ "1155)"
  else " (" ++ pfx ++ "721)"

/-- The inner `for (const [i, nft] of nft_data.entries())` loop of
`detectCollectiblesFromCovalent` for one item. `cname` is the running
`contractName` (mutated by appending a suffix on every iteration) and
`fb` the `contractFallbackLogo` variable (assigned from the image URL at
`i === 0` and kept afterwards). -/
def covalentImageURL (nft : CovalentNft) : JsVal :=
  let rawImage := match nft.external_data with
    | some ed => ed.image
    | none => JsVal.undef
  if jsTruthy rawImage then rawImage else JsVal.str "/images/nft-placeholder.svg"

/-- The collectible object pushed for one `nft_data` entry, given the
already-extended running `contractName` (`cname'`) and the resolved
`contractFallbackLogo` (`fb`). -/
def covalentEntry (contractAddress : String) (contractSymbol contractImage : JsVal)
    (cname' : String) (fb : JsVal) (nft : CovalentNft) : Collectible :=
  { contractAddress := contractAddress
    tokenID := nft.token_id
    options := [("contractName", JsVal.str cname'), ("contractSymbol", contractSymbol),
      ("contractImage", contractImage), ("contractFallbackLogo", fb),
      ("standard", JsVal.str (if nft.supports_erc.contains "erc1155" then CONTRACT_TYPE_ERC1155
        else CONTRACT_TYPE_ERC721)),
      ("contractDescription", JsVal.str ""),
      ("description", match nft.external_data with
        | some ed => ed.description
        | none => JsVal.undef),
      ("image", covalentImageURL nft),
      ("name", if jsTruthy (match nft.external_data with
          | some ed => ed.name
          | none => JsVal.undef) then
          (match nft.external_data with
          | some ed => ed.name
          | none => JsVal.undef)
        else JsVal.str (cname' ++ "#" ++ nft.token_id)),
      ("tokenBalance", nft.token_balance)] }

def covalentLoop (pfx contractAddress : String) (contractSymbol contractImage : JsVal)
    (cname : String) (fb : Option JsVal) (nfts : List CovalentNft) : List Collectible :=
  match nfts with
  | [] => []
  | nft :: rest =>
    covalentEntry contractAddress contractSymbol contractImage
        (cname ++ covalentSuffix pfx nft)
        ((match fb with
          | some f => some f
          | none => some (covalentImageURL nft)).getD JsVal.undef) nft ::
      covalentLoop pfx contractAddress contractSymbol contractImage
        (cname ++ covalentSuffix pfx nft)
        (match fb with
          | some f => some f
          | none => some (covalentImageURL nft)) rest

/-- Folds the per-entry contract-label suffixes onto a base name: the
value the running `contractName` has after processing the given
entries. -/
def appendSuffixes (pfx : String) (base : String) (nfts : List CovalentNft) : String :=
  nfts.foldl (fun acc nft => acc ++ covalentSuffix pfx nft) base

/-- The collectibles contributed by one Covalent item in
`detectCollectiblesFromCovalent`: items whose `type` is not `nft` or whose
`nft_data` is empty contribute nothing. -/
def detectCollectiblesFromCovalentItem (pfx : String) (item : CovalentItem) :
    List Collectible :=
  if item.itemType == "nft" && !item.nft_data.isEmpty then
    covalentLoop pfx item.contract_address item.contract_ticker_symbol item.logo_url
      item.contract_name none item.nft_data
  else []

/-- The normalized collectible shape produced by
`_normalizeCollectibleDetails` (fields `address`, `tokenId`, `name`,
`image`, `description`, `standard`, `tokenBalance`, `collectibleIndex`). -/
structure NormalizedCollectible where
  address : String
  tokenId : String
  name : JsVal
  image : JsVal
  description : JsVal
  standard : JsVal
  tokenBalance : JsVal
  collectibleIndex : String
deriving DecidableEq, Repr

/-- The normalized contract shape produced by `_normalizeContractDetails`
(the empty record — every field falsy — models the `return {}` taken when
the standard probe fails). -/
structure NormalizedContract where
  address : String
  name : JsVal
  symbol : JsVal
  logo : JsVal
  description : JsVal
  standard : JsVal
deriving DecidableEq, Repr

/-- `mergeContractArrays(oldArray, newArray)` from
`createMetamaskMiddleware.js`: key both arrays by `address`, keep the new
array, and append old entries whose address the new array does not
cover. -/
def mergeContractArrays (oldArr newArr : List NormalizedContract) : List NormalizedContract :=
  mergeByKey (fun c => c.address) oldArr newArr

/-- `mergeCollectibleArrays(oldArray, newArray)` from
`createMetamaskMiddleware.js`: identical to `mergeContractArrays` but
keyed by `collectibleIndex`. -/
def mergeCollectibleArrays (oldArr newArr : List NormalizedCollectible) :
    List NormalizedCollectible :=
  mergeByKey (fun c => c.collectibleIndex) oldArr newArr

/-- The `AssetController` store state relevant to collectibles: the
per-address, per-network maps and the current-view projections (the token
fields are untouched by `addCollectibles` and omitted). -/
structure AssetState where
  allCollectibles : List (String × List (String × List NormalizedCollectible))
  allCollectibleContracts : List (String × List (String × List NormalizedContract))
  collectibles : List NormalizedCollectible
  collectibleContracts : List NormalizedContract
deriving DecidableEq, Repr

/-- The projection `(allCollectibles[address] && allCollectibles[address][network]) || []`
used by `setSelectedAddress` and the network subscription to recompute the
current view. -/
def scopedCollectibles (st : AssetState) (addr net : String) : List NormalizedCollectible :=
  (jsLookup ((jsLookup st.allCollectibles addr).getD []) net).getD []

/-- The projection for collectible contracts, analogous to
`scopedCollectibles`. -/
def scopedContracts (st : AssetState) (addr net : String) : List NormalizedContract :=
  (jsLookup ((jsLookup st.allCollectibleContracts addr).getD []) net).getD []

/-- The synchronous tail of `addCollectibles` in
`createMetamaskMiddleware.js`, taking the already-awaited results of the
`_normalizeContractDetails` / `_normalizeCollectibleDetails` promises:
filter the contracts to those with truthy `name` and `symbol`, filter the
collectibles to those with truthy `name`, `standard` and `tokenBalance`,
merge each against the previous current-view arrays, and store. The
source's `merge*Arrays` return `finalArr = newArray` after pushing the
retained old entries into it — the merge MUTATES the new array in place,
so by the time `updateState` runs, `newCollectibles` and
`finalCollectibles` (resp. `newCollectibleContracts` and
`finalContracts`) are one and the same merged array: the per-scope maps
AND the current-view fields both receive the merged arrays. -/
def addCollectiblesCore (st : AssetState) (selectedAddress networkType : String)
    (contractResults : List NormalizedContract)
    (collectibleResults : List NormalizedCollectible) : AssetState :=
  let newCollectibleContracts :=
    contractResults.filter fun a => jsTruthy a.name && jsTruthy a.symbol
  let newCollectibles :=
    collectibleResults.filter fun a =>
      jsTruthy a.name && jsTruthy a.standard && jsTruthy a.tokenBalance
  let finalContracts := mergeContractArrays st.collectibleContracts newCollectibleContracts
  let finalCollectibles := mergeCollectibleArrays st.collectibles newCollectibles
  let addressCollectibles := (jsLookup st.allCollectibles selectedAddress).getD []
  let newAddressCollectibles := jsInsert addressCollectibles networkType finalCollectibles
  let newAllCollectibles := jsInsert st.allCollectibles selectedAddress newAddressCollectibles
  let addressCollectibleContracts :=
    (jsLookup st.allCollectibleContracts selectedAddress).getD []
  let newAddressCollectibleContracts :=
    jsInsert addressCollectibleContracts networkType finalContracts
  let newAllCollectibleContracts :=
    jsInsert st.allCollectibleContracts selectedAddress newAddressCollectibleContracts
  { allCollectibles := newAllCollectibles
    allCollectibleContracts := newAllCollectibleContracts
    collectibles := finalCollectibles
    collectibleContracts := finalContracts }

/-- The balance-defaulting tail of `_normalizeCollectibleDetails`
(lines 449-459 of the source): when `tokenBalance` is falsy, an `erc721`
standard sets it to `1`; an `erc1155` standard awaits
`getErc1155Balance` — whose result the source never assigns — and only a
throw of that lookup (`erc1155Balance = none`) sets the balance to
`null`. -/
def normalizeBalanceStep (info : NormalizedCollectible) (erc1155Balance : Option Nat) :
    NormalizedCollectible :=
  if jsTruthy info.tokenBalance then info
  else if info.standard == JsVal.str CONTRACT_TYPE_ERC721 then
    { info with tokenBalance := JsVal.num 1 }
  else if info.standard == JsVal.str CONTRACT_TYPE_ERC1155 then
    match erc1155Balance with
    | some _ => info
    | none => { info with tokenBalance := JsVal.null }
  else info

/-- The scheduler-relevant state of `AssetsDetectionController`:
`selectedAddress` and `_handle` mirror the controller's fields, and `live`
models the host environment's set of currently armed interval timers
(`setInterval`/`clearInterval`). -/
structure DetectionState where
  selectedAddress : String
  handle : Option Nat
  live : List Nat
deriving DecidableEq, Repr

/-- `stopAssetDetection()` from `AssetsDetectionController.js`: it only
clears `selectedAddress` (`this.selectedAddress = ''`). -/
def stopAssetDetection (s : DetectionState) : DetectionState :=
  { s with selectedAddress := "" }

/-- The `if (this._handle) clearInterval(this._handle)` guard that opens
the `set interval(interval)` setter of `AssetsDetectionController`:
disarm the timer the controller tracks, keeping `_handle` itself
unchanged. `fresh` below is the timer id the host
returns from `setInterval`. -/
def clearExistingTimer (s : DetectionState) : DetectionState :=
  match s.handle with
  | some h => { s with live := s.live.erase h }
  | none => s

/-- The rest of the `set interval(interval)` setter: after the
`clearInterval` guard, return when the new interval is falsy, and
otherwise (when running as the main instance) arm a fresh timer and
remember its handle. -/
def intervalSetter (s : DetectionState) (interval : Nat) (isMain : Bool) (fresh : Nat) :
    DetectionState :=
  let s1 := clearExistingTimer s
  if interval = 0 then s1
  else if isMain then { s1 with handle := some fresh, live := s1.live ++ [fresh] }
  else s1

/-- At most one repeating timer is armed, and any armed timer is the one
the controller's `_handle` tracks. -/
def timerInvariant (s : DetectionState) : Prop :=
  s.live.length ≤ 1 ∧ ∀ t ∈ s.live, s.handle = some t


theorem clearExistingTimer_live_nil (s : DetectionState) (hinv : timerInvariant s) :
    (clearExistingTimer s).live = [] := by
  obtain ⟨hlen, hall⟩ := hinv
  rcases hs : s.handle with _ | h
  · rcases hl : s.live with _ | ⟨t, rest⟩
    · simp [clearExistingTimer, hs, hl]
    · have := hall t (by rw [hl]; exact List.mem_cons_self t rest)
      rw [hs] at this
      exact absurd this (by simp)
  · rcases hl : s.live with _ | ⟨t, rest⟩
    · simp [clearExistingTimer, hs, hl]
    · have ht := hall t (by rw [hl]; exact List.mem_cons_self t rest)
      rw [hs] at ht
      obtain rfl : h = t := by injection ht
      have hrest : rest = [] := by
        rcases rest with _ | ⟨u, rest2⟩
        · rfl
        · rw [hl] at hlen
          simp at hlen
      subst hrest
      simp [clearExistingTimer, hs, hl]

theorem intervalSetter_zero (s : DetectionState) (isM : Bool) (fresh : Nat) :
    intervalSetter s 0 isM fresh = clearExistingTimer s := rfl

theorem intervalSetter_pos_main (s : DetectionState) (i fresh : Nat) (h : i ≠ 0) :
    intervalSetter s i true fresh =
      { clearExistingTimer s with
          handle := some fresh, live := (clearExistingTimer s).live ++ [fresh] } := by
  unfold intervalSetter
  rw [if_neg h, if_pos rfl]

theorem intervalSetter_pos_notmain (s : DetectionState) (i fresh : Nat) (h : i ≠ 0) :
    intervalSetter s i false fresh = clearExistingTimer s := by
  unfold intervalSetter
  rw [if_neg h, if_neg (by simp)]

theorem timerInvariant_of_live_nil (s : DetectionState) (h : s.live = []) :
    timerInvariant s := by
  constructor
  · rw [h]
    simp
  · intro t ht
    rw [h] at ht
    simp at ht

/-- C8 counterexample: `stopAssetDetection` does not cancel the repeating
timer. Starting from a state with an armed timer (id 5), stopping
detection clears the address but leaves both `_handle` and the armed
timer in place, so further ticks still fire. -/
theorem stopAssetDetection_timer_survives :
    stopAssetDetection { selectedAddress := "0xabc", handle := some 5, live := [5] } =
        { selectedAddress := "", handle := some 5, live := [5] } ∧
      (stopAssetDetection
        { selectedAddress := "0xabc", handle := some 5, live := [5] }).live ≠ [] := by
  refine ⟨rfl, ?_⟩
  decide

/-- C8 (amended): `stopAssetDetection` clears the active address but does
not cancel the timer (the armed-timer set is untouched; later ticks
short-circuit on the empty address — `getCustomNfts` returns empty
immediately), while re-arming through the `interval` setter always
cancels any existing timer first, so the at-most-one-live-timer invariant
is preserved. -/
theorem stopAssetDetection_and_intervalSetter (s : DetectionState)
    (interval fresh : Nat) (isMainFlag : Bool) (hinv : timerInvariant s) :
    (stopAssetDetection s).selectedAddress = "" ∧
    (stopAssetDetection s).live = s.live ∧
    (∀ (balanceOf : CustomNft → Option Nat) (metadataOf : CustomNft → Option NftMetadata)
      (localNetwork : String) (customNfts : List CustomNft),
      getCustomNfts balanceOf metadataOf localNetwork
        (stopAssetDetection s).selectedAddress customNfts = ([], [])) ∧
    timerInvariant (intervalSetter s interval isMainFlag fresh) := by
  refine ⟨rfl, rfl, fun _ _ _ _ => rfl, ?_⟩
  have h1 := clearExistingTimer_live_nil s hinv
  by_cases h0 : interval = 0
  · subst h0
    rw [intervalSetter_zero]
    exact timerInvariant_of_live_nil _ h1
  · rcases isMainFlag with _ | _
    · rw [intervalSetter_pos_notmain s interval fresh h0]
      exact timerInvariant_of_live_nil _ h1
    · rw [intervalSetter_pos_main s interval fresh h0]
      constructor
      · show ((clearExistingTimer s).live ++ [fresh]).length ≤ 1
        rw [h1]
        simp
      · intro t ht
        show some fresh = some t
        rw [h1] at ht
        simp at ht
        subst ht
        rfl

/-- Witness for the amended C8 theorem at a concrete armed state. -/
theorem stopAssetDetection_and_intervalSetter_witness :
    timerInvariant { selectedAddress := "0xabc", handle := some 5, live := [5] } ∧
      ((stopAssetDetection
          { selectedAddress := "0xabc", handle := some 5, live := [5] }).selectedAddress = "" ∧
        (stopAssetDetection { selectedAddress := "0xabc", handle := some 5, live := [5] }).live =
          ({ selectedAddress := "0xabc", handle := some 5, live := [5] } : DetectionState).live ∧
        (∀ (balanceOf : CustomNft → Option Nat) (metadataOf : CustomNft → Option NftMetadata)
          (localNetwork : String) (customNfts : List CustomNft),
          getCustomNfts balanceOf metadataOf localNetwork
            (stopAssetDetection
              { selectedAddress := "0xabc", handle := some 5, live := [5] }).selectedAddress
            customNfts = ([], [])) ∧
        timerInvariant (intervalSetter
          { selectedAddress := "0xabc", handle := some 5, live := [5] } 60000 true 6)) := by
  have hinv : timerInvariant { selectedAddress := "0xabc", handle := some 5, live := [5] } := by
    constructor
    · decide
    · intro t ht
      simp at ht
      subst ht
      rfl
  exact ⟨hinv, stopAssetDetection_and_intervalSetter _ 60000 6 true hinv⟩

/-- A sample stored (previous-cycle) normalized collectible used by the
concrete instantiations below. -/
def sampleOldCollectible : NormalizedCollectible :=
  { address := "0xA", tokenId := "1", name := JsVal.str "old", image := JsVal.str "i",
    description := JsVal.undef, standard := JsVal.str "erc721",
    tokenBalance := JsVal.num 1, collectibleIndex := "0xa_1" }

/-- A sample freshly-normalized collectible with a different index key. -/
def sampleNewCollectible : NormalizedCollectible :=
  { address := "0xB", tokenId := "2", name := JsVal.str "new", image := JsVal.str "i",
    description := JsVal.undef, standard := JsVal.str "erc721",
    tokenBalance := JsVal.num 1, collectibleIndex := "0xb_2" }

/-- A sample stored collectible contract. -/
def sampleOldContract : NormalizedContract :=
  { address := "0xC", name := JsVal.str "OldContract", symbol := JsVal.str "OLD",
    logo := JsVal.undef, description := JsVal.undef, standard := JsVal.str "erc721" }

/-- A sample store state holding `sampleOldCollectible` and
`sampleOldContract` for the scope `("me", "mainnet")`, with the view
fields in sync with that scope. -/
def sampleState : AssetState :=
  { allCollectibles := [("me", [("mainnet", [sampleOldCollectible])])]
    allCollectibleContracts := [("me", [("mainnet", [sampleOldContract])])]
    collectibles := [sampleOldCollectible]
    collectibleContracts := [sampleOldContract] }

/-- C9: the store merge is idempotent — re-merging the same normalized
result set onto the already-merged scope changes nothing — and, whenever
the incoming set has no duplicate index keys, the merged per-scope
sequence has no duplicate index keys either. -/
theorem mergeCollectibleArrays_idempotent (oldArr newArr : List NormalizedCollectible)
    (hn : (newArr.map fun c => c.collectibleIndex).Nodup) :
    mergeCollectibleArrays (mergeCollectibleArrays oldArr newArr) newArr =
        mergeCollectibleArrays oldArr newArr ∧
      ((mergeCollectibleArrays oldArr newArr).map fun c => c.collectibleIndex).Nodup :=
  ⟨mergeByKey_idem _ oldArr newArr, mergeByKey_nodupKeys _ oldArr newArr hn⟩

/-- Witness for C9 at one concrete old entry and one concrete new entry. -/
theorem mergeCollectibleArrays_idempotent_witness :
    (([sampleNewCollectible].map fun c => c.collectibleIndex).Nodup) ∧
      (mergeCollectibleArrays
          (mergeCollectibleArrays [sampleOldCollectible] [sampleNewCollectible])
          [sampleNewCollectible] =
        mergeCollectibleArrays [sampleOldCollectible] [sampleNewCollectible] ∧
      ((mergeCollectibleArrays [sampleOldCollectible] [sampleNewCollectible]).map
        fun c => c.collectibleIndex).Nodup) :=
  ⟨by decide, mergeCollectibleArrays_idempotent [sampleOldCollectible] [sampleNewCollectible]
    (by decide)⟩

theorem scopedCollectibles_addCollectiblesCore (st : AssetState)
    (selectedAddress networkType : String) (contractResults : List NormalizedContract)
    (collectibleResults : List NormalizedCollectible) :
    scopedCollectibles
        (addCollectiblesCore st selectedAddress networkType contractResults collectibleResults)
        selectedAddress networkType =
      mergeCollectibleArrays st.collectibles
        (collectibleResults.filter fun a =>
          jsTruthy a.name && jsTruthy a.standard && jsTruthy a.tokenBalance) := by
  unfold scopedCollectibles addCollectiblesCore
  simp [jsLookup_jsInsert]

theorem scopedContracts_addCollectiblesCore (st : AssetState)
    (selectedAddress networkType : String) (contractResults : List NormalizedContract)
    (collectibleResults : List NormalizedCollectible) :
    scopedContracts
        (addCollectiblesCore st selectedAddress networkType contractResults collectibleResults)
        selectedAddress networkType =
      mergeContractArrays st.collectibleContracts
        (contractResults.filter fun a => jsTruthy a.name && jsTruthy a.symbol) := by
  unfold scopedContracts addCollectiblesCore
  simp [jsLookup_jsInsert]

theorem addCollectiblesCore_collectibles (st : AssetState)
    (selectedAddress networkType : String) (contractResults : List NormalizedContract)
    (collectibleResults : List NormalizedCollectible) :
    (addCollectiblesCore st selectedAddress networkType contractResults
        collectibleResults).collectibles =
      mergeCollectibleArrays st.collectibles
        (collectibleResults.filter fun a =>
          jsTruthy a.name && jsTruthy a.standard && jsTruthy a.tokenBalance) := rfl

theorem addCollectiblesCore_contracts (st : AssetState)
    (selectedAddress networkType : String) (contractResults : List NormalizedContract)
    (collectibleResults : List NormalizedCollectible) :
    (addCollectiblesCore st selectedAddress networkType contractResults
        collectibleResults).collectibleContracts =
      mergeContractArrays st.collectibleContracts
        (contractResults.filter fun a => jsTruthy a.name && jsTruthy a.symbol) := rfl

/-- A normalized contract that fails the name/symbol check (empty name,
undefined symbol), e.g. the `{}` produced when the standard probe threw. -/
def badSampleContract : NormalizedContract :=
  { address := "0xD", name := JsVal.str "", symbol := JsVal.undef,
    logo := JsVal.undef, description := JsVal.undef, standard := JsVal.undef }

/-- C6: an `addCollectibles` call ADDS a collectible contract to the
stored contract list (the merged array that `updateState` writes to both
the view field and the per-scope map) only when both its normalized
`name` and `symbol` are truthy (non-empty): every contract of the
post-call list that was not already stored passes the check, and a
normalized contract of this call failing the check is discarded — it can
appear in the post-call list or the per-scope map only if an earlier call
had stored it. -/
theorem addCollectibles_contract_requires_name_symbol (st : AssetState)
    (selectedAddress networkType : String) (contractResults : List NormalizedContract)
    (collectibleResults : List NormalizedCollectible) :
    (∀ c ∈ (addCollectiblesCore st selectedAddress networkType contractResults
        collectibleResults).collectibleContracts,
      c ∉ st.collectibleContracts →
      jsTruthy c.name = true ∧ jsTruthy c.symbol = true) ∧
    (∀ c ∈ contractResults, ¬(jsTruthy c.name = true ∧ jsTruthy c.symbol = true) →
      (c ∈ (addCollectiblesCore st selectedAddress networkType contractResults
          collectibleResults).collectibleContracts →
        c ∈ st.collectibleContracts) ∧
      (c ∈ scopedContracts (addCollectiblesCore st selectedAddress networkType
          contractResults collectibleResults) selectedAddress networkType →
        c ∈ st.collectibleContracts)) := by
  constructor
  · intro c hc hnotold
    rw [addCollectiblesCore_contracts] at hc
    unfold mergeContractArrays at hc
    rcases mergeByKey_mem_elim hc with h1 | h1
    · have h := List.of_mem_filter h1
      simpa using h
    · exact absurd h1 hnotold
  · intro c _ hbad
    constructor
    · intro hc
      rw [addCollectiblesCore_contracts] at hc
      unfold mergeContractArrays at hc
      rcases mergeByKey_mem_elim hc with h1 | h1
      · exfalso
        have h := List.of_mem_filter h1
        simp at h
        exact hbad ⟨h.1, h.2⟩
      · exact h1
    · intro hc
      rw [scopedContracts_addCollectiblesCore] at hc
      unfold mergeContractArrays at hc
      rcases mergeByKey_mem_elim hc with h1 | h1
      · exfalso
        have h := List.of_mem_filter h1
        simp at h
        exact hbad ⟨h.1, h.2⟩
      · exact h1

/-- Witness for C6: the bad contract is not stored by a concrete call
whose previous state does not contain it. -/
theorem addCollectibles_contract_requires_name_symbol_witness :
    badSampleContract ∉ (addCollectiblesCore sampleState "me" "mainnet"
      [badSampleContract] []).collectibleContracts := by
  intro hmem
  have h := ((addCollectibles_contract_requires_name_symbol sampleState "me" "mainnet"
    [badSampleContract] []).2 badSampleContract (by decide) (by decide)).1 hmem
  exact absurd h (by decide)

/-- C3 counterexample: starting from a scope holding one collectible
(index `0xa_1`) and one contract, a call whose new batch reports neither
shows the collectible is NOT dropped: it is retained in the post-call
`collectibles` list and in the stored per-scope map, exactly like the
contract — the claimed collectibles-pruned/contracts-kept asymmetry does
not exist at this input. -/
theorem collectible_not_pruned_by_absence :
    sampleOldCollectible.collectibleIndex ∉
      ([sampleNewCollectible].map fun c => c.collectibleIndex) ∧
    (addCollectiblesCore sampleState "me" "mainnet" []
        [sampleNewCollectible]).collectibles =
      [sampleNewCollectible, sampleOldCollectible] ∧
    scopedCollectibles (addCollectiblesCore sampleState "me" "mainnet" []
        [sampleNewCollectible]) "me" "mainnet" =
      [sampleNewCollectible, sampleOldCollectible] ∧
    sampleOldCollectible ∈ (addCollectiblesCore sampleState "me" "mainnet" []
      [sampleNewCollectible]).collectibles ∧
    (addCollectiblesCore sampleState "me" "mainnet" []
      [sampleNewCollectible]).collectibleContracts = [sampleOldContract] ∧
    scopedContracts (addCollectiblesCore sampleState "me" "mainnet" []
      [sampleNewCollectible]) "me" "mainnet" = [sampleOldContract] := by
  decide

/-- C3 (amended): the store applies one and the same retention rule to
collectibles and contracts: an entry of the previous stored set whose key
is absent from the new filtered batch is RETAINED — in the per-scope map
and in the current-view field alike, since the merge returns the mutated
new array that `updateState` stores in both places — for collectibles
exactly as for contracts; neither kind is pruned by absence. -/
theorem addCollectibles_retention (st : AssetState) (selectedAddress networkType : String)
    (contractResults : List NormalizedContract)
    (collectibleResults : List NormalizedCollectible)
    (holdColl : (st.collectibles.map fun c => c.collectibleIndex).Nodup)
    (holdCon : (st.collectibleContracts.map fun c => c.address).Nodup) :
    (∀ c ∈ st.collectibles,
      c.collectibleIndex ∉ ((collectibleResults.filter fun a =>
          jsTruthy a.name && jsTruthy a.standard && jsTruthy a.tokenBalance).map
          fun a => a.collectibleIndex) →
      c ∈ scopedCollectibles (addCollectiblesCore st selectedAddress networkType
        contractResults collectibleResults) selectedAddress networkType ∧
      c ∈ (addCollectiblesCore st selectedAddress networkType
        contractResults collectibleResults).collectibles) ∧
    (∀ k ∈ st.collectibleContracts,
      k.address ∉ ((contractResults.filter fun a =>
          jsTruthy a.name && jsTruthy a.symbol).map fun a => a.address) →
      k ∈ scopedContracts (addCollectiblesCore st selectedAddress networkType
        contractResults collectibleResults) selectedAddress networkType ∧
      k ∈ (addCollectiblesCore st selectedAddress networkType
        contractResults collectibleResults).collectibleContracts) ∧
    (addCollectiblesCore st selectedAddress networkType contractResults
        collectibleResults).collectibles =
      scopedCollectibles (addCollectiblesCore st selectedAddress networkType
        contractResults collectibleResults) selectedAddress networkType ∧
    (addCollectiblesCore st selectedAddress networkType contractResults
        collectibleResults).collectibleContracts =
      scopedContracts (addCollectiblesCore st selectedAddress networkType
        contractResults collectibleResults) selectedAddress networkType := by
  have heqc := scopedCollectibles_addCollectiblesCore st selectedAddress networkType
    contractResults collectibleResults
  have heqk := scopedContracts_addCollectiblesCore st selectedAddress networkType
    contractResults collectibleResults
  refine ⟨?_, ?_, by rw [heqc]; rfl, by rw [heqk]; rfl⟩
  · intro c hc hnot
    have hmem : c ∈ mergeCollectibleArrays st.collectibles
        (collectibleResults.filter fun a =>
          jsTruthy a.name && jsTruthy a.standard && jsTruthy a.tokenBalance) := by
      unfold mergeCollectibleArrays
      exact mergeByKey_mem_old _ _ _ holdColl hc hnot
    exact ⟨by rw [heqc]; exact hmem, hmem⟩
  · intro k hk hnot
    have hmem : k ∈ mergeContractArrays st.collectibleContracts
        (contractResults.filter fun a => jsTruthy a.name && jsTruthy a.symbol) := by
      unfold mergeContractArrays
      exact mergeByKey_mem_old _ _ _ holdCon hk hnot
    exact ⟨by rw [heqk]; exact hmem, hmem⟩

/-- Witness for the amended C3 theorem: the concrete retained
collectible and contract, in the view list and under the scope map. -/
theorem addCollectibles_retention_witness :
    (sampleOldCollectible ∈ scopedCollectibles (addCollectiblesCore sampleState "me"
        "mainnet" [] [sampleNewCollectible]) "me" "mainnet" ∧
      sampleOldCollectible ∈ (addCollectiblesCore sampleState "me" "mainnet" []
        [sampleNewCollectible]).collectibles) ∧
      (sampleOldContract ∈ scopedContracts (addCollectiblesCore sampleState "me" "mainnet"
        [] [sampleNewCollectible]) "me" "mainnet" ∧
      sampleOldContract ∈ (addCollectiblesCore sampleState "me" "mainnet" []
        [sampleNewCollectible]).collectibleContracts) := by
  have h := addCollectibles_retention sampleState "me" "mainnet" [] [sampleNewCollectible]
    (by decide) (by decide)
  exact ⟨h.1 sampleOldCollectible (by decide) (by decide),
    h.2.1 sampleOldContract (by decide) (by decide)⟩

/-- C4: after every completed `addCollectibles` call, the non-prefixed
view fields are exactly the projection of the `all*` maps at the active
(address, network) scope: the source's merge functions return the
mutated new array itself, so `updateState` stores the same merged array
in the view field and in the per-scope map. -/
theorem addCollectibles_view_is_projection (st : AssetState)
    (selectedAddress networkType : String) (contractResults : List NormalizedContract)
    (collectibleResults : List NormalizedCollectible) :
    (addCollectiblesCore st selectedAddress networkType contractResults
        collectibleResults).collectibles =
      scopedCollectibles (addCollectiblesCore st selectedAddress networkType
        contractResults collectibleResults) selectedAddress networkType ∧
    (addCollectiblesCore st selectedAddress networkType contractResults
        collectibleResults).collectibleContracts =
      scopedContracts (addCollectiblesCore st selectedAddress networkType
        contractResults collectibleResults) selectedAddress networkType := by
  rw [scopedCollectibles_addCollectiblesCore, scopedContracts_addCollectiblesCore]
  exact ⟨rfl, rfl⟩

/-- An already-complete normalized collectible of standard `erc1155`
whose balance is still missing (`undefined`). -/
def sampleErc1155MissingBalance : NormalizedCollectible :=
  { address := "0xE", tokenId := "9", name := JsVal.str "n", image := JsVal.str "i",
    description := JsVal.undef, standard := JsVal.str "erc1155",
    tokenBalance := JsVal.undef, collectibleIndex := "0xe_9" }

/-- Like `sampleErc1155MissingBalance` but of standard `erc721`. -/
def sampleErc721MissingBalance : NormalizedCollectible :=
  { address := "0xF", tokenId := "3", name := JsVal.str "n", image := JsVal.str "i",
    description := JsVal.undef, standard := JsVal.str "erc721",
    tokenBalance := JsVal.undef, collectibleIndex := "0xf_3" }

/-- C7: the ERC721 default (balance 1) and the null-on-failure behaviour
hold, but for ERC1155 the source discards the successfully fetched live
balance — `getErc1155Balance` resolves to 5 here and the normalized
`tokenBalance` is still `undefined`, not 5. -/
theorem normalizeBalanceStep_erc1155_discards_balance :
    (normalizeBalanceStep sampleErc1155MissingBalance (some 5)).tokenBalance = JsVal.undef ∧
    (normalizeBalanceStep sampleErc1155MissingBalance (some 5)).tokenBalance ≠ JsVal.num 5 ∧
    (normalizeBalanceStep sampleErc721MissingBalance none).tokenBalance = JsVal.num 1 ∧
    (normalizeBalanceStep sampleErc1155MissingBalance none).tokenBalance = JsVal.null := by
  decide

theorem covalentLoop_cons (pfx a : String) (s img : JsVal) (cname : String)
    (fb : Option JsVal) (nft : CovalentNft) (rest : List CovalentNft) :
    covalentLoop pfx a s img cname fb (nft :: rest) =
      covalentEntry a s img (cname ++ covalentSuffix pfx nft)
          ((match fb with
            | some f => some f
            | none => some (covalentImageURL nft)).getD JsVal.undef) nft ::
        covalentLoop pfx a s img (cname ++ covalentSuffix pfx nft)
          (match fb with
            | some f => some f
            | none => some (covalentImageURL nft)) rest := by
  rw [covalentLoop.eq_def]

theorem covalentLoop_contractName (pfx a : String) (s img : JsVal)
    (nfts : List CovalentNft) :
    ∀ (i : Nat) (cname : String) (fb : Option JsVal), i < nfts.length →
      ∃ c : Collectible,
        (covalentLoop pfx a s img cname fb nfts)[i]? = some c ∧
        jsLookup c.options "contractName" =
          some (JsVal.str (appendSuffixes pfx cname (nfts.take (i + 1)))) := by
  induction nfts with
  | nil =>
    intro i cname fb h
    simp at h
  | cons nft rest ih =>
    intro i cname fb h
    cases i with
    | zero =>
      refine ⟨covalentEntry a s img (cname ++ covalentSuffix pfx nft)
        ((match fb with
          | some f => some f
          | none => some (covalentImageURL nft)).getD JsVal.undef) nft, ?_, ?_⟩
      · rw [covalentLoop_cons, List.getElem?_cons_zero]
      · simp [covalentEntry, jsLookup, appendSuffixes]
    | succ j =>
      have hj : j < rest.length := by simpa using h
      obtain ⟨c, hc, hname⟩ := ih j (cname ++ covalentSuffix pfx nft)
        (match fb with
          | some f => some f
          | none => some (covalentImageURL nft)) hj
      refine ⟨c, ?_, ?_⟩
      · rw [covalentLoop_cons, List.getElem?_cons_succ]
        exact hc
      · rw [hname]
        rfl

/-- C10: in the Covalent adapter the synthesized contract label
accumulates across the tokens of one record: the collectible built for
the `i`-th (0-based) entry of `nft_data` carries a `contractName` equal
to the record's `contract_name` with the suffixes of entries `0..i` all
appended (`i + 1` suffixes `" ({pfx}721)"` / `" ({pfx}1155)"`); in
particular a single-token record gets exactly one suffix. -/
theorem covalent_contractName_accumulates (pfx : String) (item : CovalentItem) (i : Nat)
    (htype : item.itemType = "nft") (hi : i < item.nft_data.length) :
    ∃ c : Collectible,
      (detectCollectiblesFromCovalentItem pfx item)[i]? = some c ∧
      jsLookup c.options "contractName" =
        some (JsVal.str (appendSuffixes pfx item.contract_name (item.nft_data.take (i + 1)))) ∧
      (item.nft_data.take (i + 1)).length = i + 1 := by
  have hne : item.nft_data.isEmpty = false := by
    rcases hl : item.nft_data with _ | ⟨nft, rest⟩
    · rw [hl] at hi
      simp at hi
    · rfl
  obtain ⟨c, hc, hname⟩ := covalentLoop_contractName pfx item.contract_address
    item.contract_ticker_symbol item.logo_url item.nft_data i item.contract_name none hi
  refine ⟨c, ?_, hname, ?_⟩
  · unfold detectCollectiblesFromCovalentItem
    rw [htype]
    simp only [hne]
    simpa using hc
  · rw [List.length_take]
    omega

/-- Metadata payload of the first Covalent sample token. -/
def sampleCovalentED : CovalentExternalData :=
  { name := JsVal.str "N", description := JsVal.undef, image := JsVal.undef }

/-- First Covalent sample token: flagged `erc1155`, with metadata. -/
def sampleCovalentNft1155 : CovalentNft :=
  { token_id := "7", token_balance := JsVal.num 1, supports_erc := ["erc721", "erc1155"],
    external_data := some sampleCovalentED }

/-- Second Covalent sample token: plain `erc721`, no metadata. -/
def sampleCovalentNft721 : CovalentNft :=
  { token_id := "8", token_balance := JsVal.num 1, supports_erc := ["erc721"],
    external_data := none }

/-- A Covalent response item holding the two sample tokens under one
contract record. -/
def sampleCovalentItem : CovalentItem :=
  { itemType := "nft", contract_name := "MyName", logo_url := JsVal.undef,
    contract_address := "0xCC", contract_ticker_symbol := JsVal.str "SYM",
    nft_data := [sampleCovalentNft1155, sampleCovalentNft721] }

/-- Witness for C10: the second token (index 1) of the two-token sample
record carries two appended suffixes. -/
theorem covalent_contractName_accumulates_witness :
    ∃ c : Collectible,
      (detectCollectiblesFromCovalentItem "ERC" sampleCovalentItem)[1]? = some c ∧
      jsLookup c.options "contractName" =
        some (JsVal.str (appendSuffixes "ERC" sampleCovalentItem.contract_name
          (sampleCovalentItem.nft_data.take 2))) ∧
      (sampleCovalentItem.nft_data.take 2).length = 2 :=
  covalent_contractName_accumulates "ERC" sampleCovalentItem 1 rfl (by decide)

theorem collectibleKey_deepmerge (a b : Collectible) :
    collectibleKey (deepmergeCollectible a b) = collectibleKey b := rfl

theorem detectProviderPart_keys_not_custom
    (customMap covalentMap openseaMap : List (String × Collectible))
    (hos : ∀ p ∈ openseaMap, p.1 = collectibleKey p.2)
    (hcov : ∀ p ∈ covalentMap, p.1 = collectibleKey p.2) :
    ∀ e ∈ detectProviderPart customMap covalentMap openseaMap,
      jsLookup customMap (collectibleKey e) = none := by
  intro e he
  unfold detectProviderPart at he
  by_cases hlen : 0 < openseaMap.length
  · rw [if_pos hlen] at he
    rcases List.mem_map.mp he with ⟨p, hp, hpe⟩
    have hpo := List.mem_of_mem_filter hp
    have hpred := List.of_mem_filter hp
    have hkey : collectibleKey e = p.1 := by
      rw [← hpe]
      rcases jsLookup covalentMap p.1 with _ | cov
      · exact (hos p hpo).symm
      · rw [collectibleKey_deepmerge]
        exact (hos p hpo).symm
    rw [hkey]
    exact Option.isNone_iff_eq_none.mp hpred
  · rw [if_neg hlen] at he
    rcases List.mem_map.mp he with ⟨p, hp, hpe⟩
    have hpo := List.mem_of_mem_filter hp
    have hpred := List.of_mem_filter hp
    have hkey : collectibleKey e = p.1 := by
      rw [← hpe]
      exact (hcov p hpo).symm
    rw [hkey]
    exact Option.isNone_iff_eq_none.mp hpred

/-- C1: if a key is present in the user-supplied custom set, the final
array of a detection cycle contains exactly the custom entries for that
key, unchanged, regardless of the branch taken (Mainnet/Matic or
Covalent-only) and of what either provider returned: the entries of the
final array with that key are precisely the custom array's. -/
theorem detect_customOverride (mainnetOrMatic : Bool)
    (customArr covalentArr openseaArr : List Collectible) (k : String)
    (h : k ∈ customArr.map collectibleKey) :
    (detectFinalArr mainnetOrMatic customArr covalentArr openseaArr).filter
        (fun c => collectibleKey c == k) =
      customArr.filter (fun c => collectibleKey c == k) := by
  have hos : ∀ p ∈ (if mainnetOrMatic then
      getObjectFromArrayBasedonKey collectibleKey openseaArr else []),
      p.1 = collectibleKey p.2 := by
    rcases mainnetOrMatic with _ | _
    · simp
    · intro p hp
      simp only [if_pos] at hp
      exact (mem_getObjectFromArrayBasedonKey hp).1
  have hcov : ∀ p ∈ getObjectFromArrayBasedonKey collectibleKey covalentArr,
      p.1 = collectibleKey p.2 := fun p hp => (mem_getObjectFromArrayBasedonKey hp).1
  have hnone := detectProviderPart_keys_not_custom
    (getObjectFromArrayBasedonKey collectibleKey customArr)
    (getObjectFromArrayBasedonKey collectibleKey covalentArr)
    (if mainnetOrMatic then getObjectFromArrayBasedonKey collectibleKey openseaArr else [])
    hos hcov
  show (customArr ++ detectProviderPart _ _ _).filter (fun c => collectibleKey c == k) = _
  rw [List.filter_append]
  have hnil : (detectProviderPart
      (getObjectFromArrayBasedonKey collectibleKey customArr)
      (getObjectFromArrayBasedonKey collectibleKey covalentArr)
      (if mainnetOrMatic then getObjectFromArrayBasedonKey collectibleKey openseaArr
        else [])).filter (fun c => collectibleKey c == k) = [] := by
    rw [List.filter_eq_nil_iff]
    intro e he hbeq
    have hek : collectibleKey e = k := by simpa using hbeq
    have hn := hnone e he
    rw [hek, jsLookup_getObjectFromArrayBasedonKey_eq_none] at hn
    exact hn h
  rw [hnil, List.append_nil]

/-- A custom user entry whose key `0xab_7` collides with both provider
results below. -/
def sampleCustomCollectible : Collectible :=
  { contractAddress := "0xAB", tokenID := "7",
    options := [("name", JsVal.str "custom"), ("tokenBalance", JsVal.num 1)] }

/-- A provider entry carrying the same key `0xab_7` as the custom entry. -/
def sampleShadowCollectible : Collectible :=
  { contractAddress := "0xab", tokenID := "7",
    options := [("name", JsVal.str "provider"), ("tokenBalance", JsVal.num 9)] }

/-- Witness for C1: with both providers returning a conflicting entry for
the custom key, the final array keeps exactly the custom entry. -/
theorem detect_customOverride_witness :
    "0xab_7" ∈ ([sampleCustomCollectible].map collectibleKey) ∧
      (detectFinalArr true [sampleCustomCollectible] [sampleShadowCollectible]
          [sampleShadowCollectible]).filter (fun c => collectibleKey c == "0xab_7") =
        [sampleCustomCollectible].filter (fun c => collectibleKey c == "0xab_7") :=
  ⟨by decide, detect_customOverride true [sampleCustomCollectible] [sampleShadowCollectible]
    [sampleShadowCollectible] "0xab_7" (by decide)⟩

theorem jsLookup_jsBuild_append (a b : List (String × α)) (k : String)
    (ha : (a.map Prod.fst).Nodup) (hb : (b.map Prod.fst).Nodup) :
    jsLookup (jsBuild (a ++ b)) k =
      match jsLookup b k with
      | some v => some v
      | none => jsLookup a k := by
  rw [jsBuild, List.foldl_append, jsLookup_foldl_jsInsert b _ k hb]
  have h : jsLookup (List.foldl (fun m p => jsInsert m p.1 p.2) [] a) k = jsLookup a k :=
    jsLookup_jsBuild a k ha
  rw [h]

/-- A Covalent-only entry (key `0xaa_1`) that the claim says should
survive the merge when OpenSea returns something. -/
def covOnlyCollectible : Collectible :=
  { contractAddress := "0xAA", tokenID := "1",
    options := [("description", JsVal.str "covalent only"), ("tokenBalance", JsVal.num 1)] }

/-- A Covalent entry for the shared key `0xbb_2`, with a non-empty
`description`. -/
def covSharedCollectible : Collectible :=
  { contractAddress := "0xBB", tokenID := "2",
    options := [("description", JsVal.str "covalent desc"), ("tokenBalance", JsVal.num 3)] }

/-- The OpenSea entry for the same shared key `0xbb_2`, whose
`description` binding is present but `undefined` (empty). -/
def osSharedCollectible : Collectible :=
  { contractAddress := "0xBB", tokenID := "2",
    options := [("description", JsVal.undef), ("image", JsVal.str "img")] }

/-- C2 counterexample: with OpenSea returning one item, (a) the
non-custom key `0xaa_1` present only in Covalent does NOT appear in the
final merged set, and (b) for the shared key the merged entry's
`description` is OpenSea's `undefined` binding rather than the fallback
to Covalent's non-empty `"covalent desc"` — an empty Provider-B field
still overwrites Provider-A's. -/
theorem detect_drops_covalent_only_key :
    detectFinalArr true [] [covOnlyCollectible, covSharedCollectible] [osSharedCollectible] =
      [deepmergeCollectible covSharedCollectible osSharedCollectible] ∧
    collectibleKey covOnlyCollectible = "0xaa_1" ∧
    "0xaa_1" ∉ (detectFinalArr true [] [covOnlyCollectible, covSharedCollectible]
      [osSharedCollectible]).map collectibleKey ∧
    jsLookup covSharedCollectible.options "description" = some (JsVal.str "covalent desc") ∧
    jsLookup osSharedCollectible.options "description" = some JsVal.undef ∧
    jsLookup (deepmergeCollectible covSharedCollectible osSharedCollectible).options
      "description" = some JsVal.undef := by
  decide

/-- C2 (amended): when OpenSea returned at least one item for the batch,
the provider part of the final set consists exactly of the non-custom
OpenSea keys: a key present in both providers yields the deep merge in
which a field bound on the OpenSea entry — even to an empty value — wins
and Provider-A is consulted only for field names absent from the OpenSea
entry; an OpenSea-only key contributes the OpenSea entry as-is; and a
non-custom key present only in Covalent is dropped. -/
theorem detect_openseaPrecedence (customArr covalentArr openseaArr : List Collectible)
    (k : String) :
    (∀ o c : Collectible,
      jsLookup (getObjectFromArrayBasedonKey collectibleKey openseaArr) k = some o →
      jsLookup (getObjectFromArrayBasedonKey collectibleKey covalentArr) k = some c →
      jsLookup (getObjectFromArrayBasedonKey collectibleKey customArr) k = none →
        deepmergeCollectible c o ∈ detectFinalArr true customArr covalentArr openseaArr ∧
        ∀ fieldName : String, (c.options.map Prod.fst).Nodup →
          (o.options.map Prod.fst).Nodup →
          jsLookup (deepmergeCollectible c o).options fieldName =
            match jsLookup o.options fieldName with
            | some v => some v
            | none => jsLookup c.options fieldName) ∧
    (∀ o : Collectible,
      jsLookup (getObjectFromArrayBasedonKey collectibleKey openseaArr) k = some o →
      jsLookup (getObjectFromArrayBasedonKey collectibleKey covalentArr) k = none →
      jsLookup (getObjectFromArrayBasedonKey collectibleKey customArr) k = none →
        o ∈ detectFinalArr true customArr covalentArr openseaArr) ∧
    (openseaArr ≠ [] →
      jsLookup (getObjectFromArrayBasedonKey collectibleKey openseaArr) k = none →
      jsLookup (getObjectFromArrayBasedonKey collectibleKey customArr) k = none →
      (detectFinalArr true customArr covalentArr openseaArr).filter
        (fun c => collectibleKey c == k) = []) := by
  refine ⟨?_, ?_, ?_⟩
  · intro o c ho hc hcust
    have hmem : (k, o) ∈ getObjectFromArrayBasedonKey collectibleKey openseaArr :=
      mem_of_jsLookup_eq_some ho
    have hlen : 0 < (getObjectFromArrayBasedonKey collectibleKey openseaArr).length :=
      List.length_pos.mpr (List.ne_nil_of_mem hmem)
    constructor
    · show deepmergeCollectible c o ∈
        _ ++ detectProviderPart (getObjectFromArrayBasedonKey collectibleKey customArr)
          (getObjectFromArrayBasedonKey collectibleKey covalentArr)
          (if True then getObjectFromArrayBasedonKey collectibleKey openseaArr else [])
      rw [if_pos trivial]
      refine List.mem_append_right _ ?_
      unfold detectProviderPart
      rw [if_pos hlen]
      refine List.mem_map.mpr ⟨(k, o), List.mem_filter.mpr ⟨hmem, ?_⟩, ?_⟩
      · simp [hcust]
      · simp only [hc]
    · intro fieldName hnc hno
      show jsLookup (jsBuild (c.options ++ o.options)) fieldName = _
      rw [jsLookup_jsBuild_append c.options o.options fieldName hnc hno]
      rcases jsLookup o.options fieldName with _ | v <;> rfl
  · intro o ho hc hcust
    have hmem : (k, o) ∈ getObjectFromArrayBasedonKey collectibleKey openseaArr :=
      mem_of_jsLookup_eq_some ho
    have hlen : 0 < (getObjectFromArrayBasedonKey collectibleKey openseaArr).length :=
      List.length_pos.mpr (List.ne_nil_of_mem hmem)
    show o ∈ _ ++ detectProviderPart (getObjectFromArrayBasedonKey collectibleKey customArr)
      (getObjectFromArrayBasedonKey collectibleKey covalentArr)
      (if True then getObjectFromArrayBasedonKey collectibleKey openseaArr else [])
    rw [if_pos trivial]
    refine List.mem_append_right _ ?_
    unfold detectProviderPart
    rw [if_pos hlen]
    refine List.mem_map.mpr ⟨(k, o), List.mem_filter.mpr ⟨hmem, ?_⟩, ?_⟩
    · simp [hcust]
    · simp only [hc]
  · intro hne ho hcust
    show (customArr ++ detectProviderPart
      (getObjectFromArrayBasedonKey collectibleKey customArr)
      (getObjectFromArrayBasedonKey collectibleKey covalentArr)
      (if True then getObjectFromArrayBasedonKey collectibleKey openseaArr else [])).filter
        (fun c => collectibleKey c == k) = []
    rw [if_pos trivial, List.filter_append, List.filter_eq_nil_iff.mpr, List.nil_append,
      List.filter_eq_nil_iff.mpr]
    · intro e he hbeq
      have hek : collectibleKey e = k := by simpa using hbeq
      rcases hlen : (getObjectFromArrayBasedonKey collectibleKey openseaArr).length with _ | n
      · have : getObjectFromArrayBasedonKey collectibleKey openseaArr = [] :=
          List.length_eq_zero.mp hlen
        have hx : openseaArr.map collectibleKey = [] := by
          rcases hmm : openseaArr.map collectibleKey with _ | ⟨y, ys⟩
          · rfl
          · exfalso
            have hy : y ∈ openseaArr.map collectibleKey := by
              rw [hmm]
              exact List.mem_cons_self y ys
            rw [← mem_keys_getObjectFromArrayBasedonKey collectibleKey openseaArr y] at hy
            rw [this] at hy
            simp at hy
        exact hne (by simpa using congrArg List.length hx)
      · unfold detectProviderPart at he
        rw [if_pos (by rw [hlen]; exact Nat.succ_pos n)] at he
        rcases List.mem_map.mp he with ⟨p, hp, hpe⟩
        have hpo := List.mem_of_mem_filter hp
        have hkey : collectibleKey e = p.1 := by
          rw [← hpe]
          rcases jsLookup (getObjectFromArrayBasedonKey collectibleKey covalentArr) p.1 with
            _ | cov
          · exact ((mem_getObjectFromArrayBasedonKey hpo).1).symm
          · rw [collectibleKey_deepmerge]
            exact ((mem_getObjectFromArrayBasedonKey hpo).1).symm
        have hpk : p.1 = k := by rw [← hkey, hek]
        have : k ∈ (getObjectFromArrayBasedonKey collectibleKey openseaArr).map Prod.fst :=
          hpk ▸ List.mem_map_of_mem Prod.fst hpo
        rw [← jsLookup_isSome_iff] at this
        rw [ho] at this
        simp at this
    · intro e he hbeq
      have hek : collectibleKey e = k := by simpa using hbeq
      have : k ∈ customArr.map collectibleKey := hek ▸ List.mem_map_of_mem collectibleKey he
      rw [jsLookup_getObjectFromArrayBasedonKey_eq_none] at hcust
      exact hcust this

/-- Witness for the amended C2 theorem on the shared-key sample entries. -/
theorem detect_openseaPrecedence_witness :
    deepmergeCollectible covSharedCollectible osSharedCollectible ∈
        detectFinalArr true [] [covSharedCollectible] [osSharedCollectible] ∧
      jsLookup (deepmergeCollectible covSharedCollectible osSharedCollectible).options
          "description" =
        (match jsLookup osSharedCollectible.options "description" with
          | some v => some v
          | none => jsLookup covSharedCollectible.options "description") := by
  have h := (detect_openseaPrecedence [] [covSharedCollectible] [osSharedCollectible]
    "0xbb_2").1 osSharedCollectible covSharedCollectible (by decide) (by decide) (by decide)
  exact ⟨h.1, h.2 "description" (by decide) (by decide)⟩

/-- C5: a custom entry whose resolved balance is 0 is processed to
`undefined` — it never enters the non-zero list nor the collectibles map —
and any entry that fails (balance lookup throw, zero balance, metadata
throw) is omitted alone: the batch output equals the output for the batch
without that entry. -/
theorem getCustomNfts_omits_only_failed (balanceOf : CustomNft → Option Nat)
    (metadataOf : CustomNft → Option NftMetadata) (localNetwork selectedAddress : String)
    (l1 l2 : List CustomNft) (x : CustomNft) :
    (balanceOf x = some 0 → processCustomNft balanceOf metadataOf x = none) ∧
    (processCustomNft balanceOf metadataOf x = none →
      getCustomNfts balanceOf metadataOf localNetwork selectedAddress (l1 ++ x :: l2) =
        getCustomNfts balanceOf metadataOf localNetwork selectedAddress (l1 ++ l2)) := by
  constructor
  · intro hb
    unfold processCustomNft
    rw [hb]
    simp
  · intro hx
    unfold getCustomNfts
    by_cases hsel : (selectedAddress == "") = true
    · rw [if_pos hsel, if_pos hsel]
    · rw [if_neg hsel, if_neg hsel]
      have hfm : ((l1 ++ x :: l2).filter fun y => y.network == localNetwork).filterMap
          (processCustomNft balanceOf metadataOf) =
          ((l1 ++ l2).filter fun y => y.network == localNetwork).filterMap
          (processCustomNft balanceOf metadataOf) := by
        rw [List.filter_append, List.filter_append, List.filter_cons]
        by_cases hnet : (x.network == localNetwork) = true
        · rw [if_pos hnet, List.filterMap_append, List.filterMap_append,
            List.filterMap_cons, hx]
        · rw [if_neg hnet]
      rw [hfm]

/-- A custom entry whose on-chain balance resolves to 0 under
`sampleBalanceOracle`. -/
def sampleZeroBalanceNft : CustomNft :=
  { nft_address := "0xAA", nft_id := "1", nft_contract_standard := "ERC721",
    network := "mainnet", description := "d", nft_image_link := "i", nft_name := "n" }

/-- A custom entry whose on-chain balance resolves to 2. -/
def sampleOwnedNft : CustomNft :=
  { nft_address := "0xBB", nft_id := "2", nft_contract_standard := "ERC721",
    network := "mainnet", description := "d", nft_image_link := "i", nft_name := "n" }

/-- Balance oracle for the samples: id "1" is no longer owned. -/
def sampleBalanceOracle : CustomNft → Option Nat :=
  fun x => if x.nft_id == "1" then some 0 else some 2

/-- Metadata oracle for the samples: every metadata fetch throws. -/
def sampleMetadataOracle : CustomNft → Option NftMetadata := fun _ => none

/-- Witness for C5: the zero-balance entry is dropped and the remaining
entry of the batch is processed as if the bad entry were absent. -/
theorem getCustomNfts_omits_only_failed_witness :
    processCustomNft sampleBalanceOracle sampleMetadataOracle sampleZeroBalanceNft = none ∧
      getCustomNfts sampleBalanceOracle sampleMetadataOracle "mainnet" "me"
          ([] ++ sampleZeroBalanceNft :: [sampleOwnedNft]) =
        getCustomNfts sampleBalanceOracle sampleMetadataOracle "mainnet" "me"
          ([] ++ [sampleOwnedNft]) := by
  have h := getCustomNfts_omits_only_failed sampleBalanceOracle sampleMetadataOracle
    "mainnet" "me" [] [sampleOwnedNft] sampleZeroBalanceNft
  exact ⟨h.1 (by decide), h.2 (h.1 (by decide))⟩
